/-
Verification of the Tudat `Propagator` base class
(src/Astrodynamics/Propagators/propagator.h) against its natural-language
specification.

Shallow embedding conventions:
* `double` time values are modelled as `ℚ`.
* `Body*` handles are modelled as `ℕ` (opaque identities used as lookup keys,
  matching the spec: "the core never owns a Body, only references it as a
  lookup key").
* `State*` is modelled as a `State` structure carrying the epoch it is defined
  at plus a numeric vector; the spec treats `State` as opaque, and the epoch
  field lets theorems speak about "a state defined at time t".
* `std::map<double, State*> propagationHistory_` is modelled as an association
  list `List (ℚ × State)` ordered by time (the model's `propagate` produces it
  in strictly ascending key order, mirroring `std::map` ordering).
* `std::map<Body*, PropagatorDataContainer*> bodiesToPropagate_` is modelled as
  the inductive `RecordMap`; `std::map` keeps at most one entry per key, which
  the model realises by inserting only unregistered keys.
* Fallible member functions are modelled with `Except PropagatorError`.

Only the class declaration is under src/; every member-function body (and the
pure-virtual `propagate()` contract) lives elsewhere in the repository, so the
operation bodies below are modelled from the spec, as flagged in each doc
comment.
-/
import Mathlib

set_option maxHeartbeats 1000000

namespace Tudat

/-- Modelled from the spec: `State` is an "opaque fixed-size numeric vector
representing a body's dynamical state at a given time" (the concrete
`state.h` is not under src/). `epoch` records the time the state is defined
at, and `vec` the numeric vector. -/
structure State where
  epoch : ℚ
  vec : List ℚ
  deriving DecidableEq, Repr

/-- Modelled from the spec, §7 error taxonomy: `ConfigurationError` for
operations referencing an unregistered body, `NotYetComputedError` for result
queries issued before any successful `propagate()` call. -/
inductive PropagatorError where
  | configurationError
  | notYetComputedError
  deriving DecidableEq, Repr

mutual

/-- The `Propagator` class of propagator.h (lines 71-227): fields
`propagationIntervalStart_`, `propagationIntervalEnd_`,
`fixedOutputInterval_` (doubles, lines 187-199), the registry
`bodiesToPropagate_ : std::map<Body*, PropagatorDataContainer*>` (line 205)
and the single shared history `propagationHistory_ : std::map<double, State*>`
(line 218). The iterator members are C++ loop scratch space with no abstract
state and are not modelled. -/
inductive Propagator : Type where
  | mk (propagationIntervalStart_ propagationIntervalEnd_ fixedOutputInterval_ : ℚ)
       (bodiesToPropagate_ : RecordMap)
       (propagationHistory_ : List (ℚ × State)) : Propagator

/-- The contents of `bodiesToPropagate_`: an association list from body
handles to their `PropagatorDataContainer` records, standing for
`std::map<Body*, PropagatorDataContainer*>` (propagator.h line 205). -/
inductive RecordMap : Type where
  | nil : RecordMap
  | cons (body : ℕ) (rec : PropagatorDataContainer) (rest : RecordMap) : RecordMap

/-- Modelled from the spec: `PropagationRecord` — "per-body record binding a
body handle to its initial state and an optional nested propagator used to
advance that specific body", plus the final state "populated by
`propagate()`" (the concrete propagatorDataContainer.h is not under src/).
The body handle itself is the `RecordMap` key. -/
inductive PropagatorDataContainer : Type where
  | mk (pointerToInitialState : Option State)
       (pointerToPropagator : NestedPropagator)
       (finalState : Option State) : PropagatorDataContainer

/-- An optional non-owning reference to a nested `Propagator`
(`Propagator*` in C++, null when no delegate is assigned). -/
inductive NestedPropagator : Type where
  | null : NestedPropagator
  | ref (p : Propagator) : NestedPropagator

end

namespace RecordMap

/-- Keys of the registry, in insertion order. -/
def keys : RecordMap → List ℕ
  | .nil => []
  | .cons b _ rest => b :: keys rest

/-- Number of records in the registry. -/
def size : RecordMap → ℕ
  | .nil => 0
  | .cons _ _ rest => size rest + 1

/-- `std::map::find`: the record stored under key `b`, if any. -/
def lookup : RecordMap → ℕ → Option PropagatorDataContainer
  | .nil, _ => none
  | .cons b' r rest, b => if b' = b then some r else lookup rest b

/-- `std::map::count != 0`: whether key `b` is registered. -/
def containsBody (m : RecordMap) (b : ℕ) : Bool :=
  (m.lookup b).isSome

/-- Number of records whose key is `b`. -/
def countKey : RecordMap → ℕ → ℕ
  | .nil, _ => 0
  | .cons b' _ rest, b => (if b' = b then 1 else 0) + countKey rest b

/-- Replace the record stored under an existing key `b`; keys and record
count are unchanged, and an absent key stays absent. -/
def setRecord : RecordMap → ℕ → PropagatorDataContainer → RecordMap
  | .nil, _, _ => .nil
  | .cons b' r rest, b, r' =>
      if b' = b then .cons b' r' (setRecord rest b r')
      else .cons b' r (setRecord rest b r')

end RecordMap

namespace PropagatorDataContainer

/-- The stored initial state of the record. -/
def pointerToInitialState : PropagatorDataContainer → Option State
  | .mk i _ _ => i

/-- The stored nested propagator reference of the record. -/
def pointerToPropagator : PropagatorDataContainer → NestedPropagator
  | .mk _ n _ => n

/-- The stored final state of the record. -/
def finalState : PropagatorDataContainer → Option State
  | .mk _ _ f => f

end PropagatorDataContainer

namespace Propagator

/-- Field accessor for `propagationIntervalStart_` (propagator.h line 187). -/
def propagationIntervalStart_ : Propagator → ℚ
  | .mk a _ _ _ _ => a

/-- Field accessor for `propagationIntervalEnd_` (propagator.h line 193). -/
def propagationIntervalEnd_ : Propagator → ℚ
  | .mk _ b _ _ _ => b

/-- Field accessor for `fixedOutputInterval_` (propagator.h line 199). -/
def fixedOutputInterval_ : Propagator → ℚ
  | .mk _ _ d _ _ => d

/-- Field accessor for `bodiesToPropagate_` (propagator.h line 205). -/
def bodiesToPropagate_ : Propagator → RecordMap
  | .mk _ _ _ m _ => m

/-- Field accessor for `propagationHistory_` (propagator.h line 218). -/
def propagationHistory_ : Propagator → List (ℚ × State)
  | .mk _ _ _ _ h => h

end Propagator

/-- Modelled from the spec: the default constructor `Propagator()` (its body
in propagator.cpp is not under src/). "A Propagator is constructed, then
configured"; `fixedOutputInterval_` "unset/zero value means store only the
final state", so all numeric fields start at zero with empty registry and
history. -/
def defaultPropagator : Propagator := .mk 0 0 0 .nil []

/-- Modelled from the spec: `setPropagationIntervalStart` (declared
propagator.h line 92; body not under src/) — "set the closed time bounds for
the upcoming propagate() call; no validation against existing history". -/
def setPropagationIntervalStart (p : Propagator) (v : ℚ) : Propagator :=
  match p with
  | .mk _ t1 d m h => .mk v t1 d m h

/-- Modelled from the spec: `setPropagationIntervalEnd` (declared
propagator.h line 99; body not under src/). -/
def setPropagationIntervalEnd (p : Propagator) (v : ℚ) : Propagator :=
  match p with
  | .mk t0 _ d m h => .mk t0 v d m h

/-- Modelled from the spec: `setFixedOutputInterval` (declared propagator.h
line 131; body not under src/) — "enables periodic history sampling at the
given spacing; a value of zero (or unset) disables sampling". -/
def setFixedOutputInterval (p : Propagator) (v : ℚ) : Propagator :=
  match p with
  | .mk t0 t1 _ m h => .mk t0 t1 v m h

/-- Modelled from the spec: `getPropagationIntervalStart` (declared
propagator.h line 138; body not under src/) — "return currently configured
bounds". -/
def getPropagationIntervalStart (p : Propagator) : ℚ :=
  p.propagationIntervalStart_

/-- Modelled from the spec: `getPropagationIntervalEnd` (declared
propagator.h line 145; body not under src/). -/
def getPropagationIntervalEnd (p : Propagator) : ℚ :=
  p.propagationIntervalEnd_

/-- Modelled from the spec: `addBody` (declared propagator.h line 106; body
not under src/) — "registers a body for propagation; if already registered,
is a no-op or re-registration; does not require an initial state yet".
`bodiesToPropagate_` is a `std::map` keyed by the body handle, so a repeated
key never produces a second record; the model registers a fresh empty record
for a new key and leaves an existing record in place. -/
def addBody (p : Propagator) (b : ℕ) : Propagator :=
  match p with
  | .mk t0 t1 d m h =>
      if m.containsBody b then .mk t0 t1 d m h
      else .mk t0 t1 d (.cons b (.mk none .null none) m) h

/-- Modelled from the spec: `setInitialState` (declared propagator.h line
122; body not under src/) — "binds an initial state to a registered body;
fails if body is not registered"; failure for an unregistered body signals
`ConfigurationError` (spec §7). -/
def setInitialState (p : Propagator) (b : ℕ) (s : State) :
    Except PropagatorError Propagator :=
  match p with
  | .mk t0 t1 d m h =>
      match m.lookup b with
      | none => .error .configurationError
      | some r =>
          .ok (.mk t0 t1 d
            (m.setRecord b (.mk (some s) r.pointerToPropagator r.finalState)) h)

/-- Modelled from the spec: `setPropagator` (declared propagator.h line 114;
body not under src/) — "assigns a nested propagator responsible for advancing
this specific body's state; fails if body is not registered". -/
def setPropagator (p : Propagator) (b : ℕ) (q : Propagator) :
    Except PropagatorError Propagator :=
  match p with
  | .mk t0 t1 d m h =>
      match m.lookup b with
      | none => .error .configurationError
      | some r =>
          .ok (.mk t0 t1 d
            (m.setRecord b
              (.mk r.pointerToInitialState (.ref q) r.finalState)) h)

/-- Modelled from the spec: `getFinalState` (declared propagator.h line 153;
body not under src/) — "returns the state of body at `propagationIntervalEnd_`
as computed by the most recent `propagate()`; fails if body is not registered
[`ConfigurationError`] or `propagate()` has not yet run
[`NotYetComputedError`]". -/
def getFinalState (p : Propagator) (b : ℕ) : Except PropagatorError State :=
  match p.bodiesToPropagate_.lookup b with
  | none => .error .configurationError
  | some r =>
      match r.finalState with
      | none => .error .notYetComputedError
      | some s => .ok s

/-- Modelled from the spec: `getPropagationHistoryAtFixedOutputIntervals`
(declared propagator.h lines 162-163; body not under src/) — "returns the
ordered time→state mapping sampled during the most recent `propagate()`;
empty if sampling was disabled or `propagate()` has not run", and any
getter referencing an unregistered body signals `ConfigurationError`
(spec §8). The class holds a single `propagationHistory_` map (propagator.h
line 218) and the declared return type is `std::map<double, State*>` by
value, so the caller receives a copy of that shared map. -/
def getPropagationHistoryAtFixedOutputIntervals (p : Propagator) (b : ℕ) :
    Except PropagatorError (List (ℚ × State)) :=
  if p.bodiesToPropagate_.containsBody b then .ok p.propagationHistory_
  else .error .configurationError

/-- Modelled from the spec: the sampling instants of one propagation run —
"history timestamps, when sampling is enabled, must be spaced by exactly
`fixedOutputInterval_`, starting at `propagationIntervalStart_`, and must
never exceed `propagationIntervalEnd_`". Empty when sampling is disabled
(`delta ≤ 0`) or the closed interval is empty. -/
def sampleTimes (t0 t1 delta : ℚ) : List ℚ :=
  if 0 < delta ∧ t0 ≤ t1 then
    (List.range (⌊(t1 - t0) / delta⌋.toNat + 1)).map
      (fun k : ℕ => t0 + (k : ℚ) * delta)
  else []

/-- The initial state of the first registered body that has one; the body
whose trajectory the single shared `propagationHistory_` map records. -/
def firstInitialState : RecordMap → Option State
  | .nil => none
  | .cons _ r rest =>
      match r.pointerToInitialState with
      | some s => some s
      | none => firstInitialState rest

/-- Modelled from the spec: the history entries one `propagate()` run writes
into the single shared `propagationHistory_` map — "if sampling is enabled,
populate the history mapping at each sampling instant". `adv s t` is the
trajectory state at time `t` of the body whose initial state is `s` (the
numerical method itself is an explicit non-goal of the spec, so the
advancement map is a parameter). With no registered initial state there is
no trajectory to sample and the history stays empty. -/
def sampleHistory (adv : State → ℚ → State) (t0 t1 delta : ℚ)
    (m : RecordMap) : List (ℚ × State) :=
  match firstInitialState m with
  | none => []
  | some s => (sampleTimes t0 t1 delta).map (fun t => (t, adv s t))

/-- The final state `propagate()` stored for body `b`, read straight from the
registry record (`none` when `b` is unregistered or nothing was stored). -/
def finalStateOf (p : Propagator) (b : ℕ) : Option State :=
  match p.bodiesToPropagate_.lookup b with
  | none => none
  | some r => r.finalState

mutual

/-- Modelled from the spec: the pure-virtual `propagate()` contract
(declared propagator.h line 169) — "a concrete implementation must, for
every registered body: determine its state trajectory across
[`propagationIntervalStart_`, `propagationIntervalEnd_`], using the body's
nested propagator if one was assigned (delegation) or the subclass's own
method otherwise; populate the final state; if sampling is enabled, populate
the history mapping at each sampling instant". `adv` is the subclass's own
advancement method. -/
def propagateModel (adv : State → ℚ → State) (p : Propagator) : Propagator :=
  match p with
  | .mk t0 t1 delta m _ =>
      .mk t0 t1 delta (propagateRecords adv t1 m)
        (sampleHistory adv t0 t1 delta m)
termination_by structural p

/-- One pass of `propagate()` over the registry: every record's final state
is populated; registry keys, initial states and nested assignments are left
as configured. -/
def propagateRecords (adv : State → ℚ → State) (t1 : ℚ) (m : RecordMap) :
    RecordMap :=
  match m with
  | .nil => .nil
  | .cons b r rest =>
      .cons b (propagateRecord adv t1 b r) (propagateRecords adv t1 rest)
termination_by structural m

/-- Modelled from the spec: how `propagate()` fills one body's final state —
with a nested propagator P assigned it "must, for B, delegate state
advancement to P (P's own interval bounds, independently configured, govern
B's trajectory) rather than advancing B itself", so B's final state is the
one P computes for B; otherwise the subclass's own method advances the
configured initial state to `propagationIntervalEnd_`. -/
def propagateRecord (adv : State → ℚ → State) (t1 : ℚ) (b : ℕ)
    (r : PropagatorDataContainer) : PropagatorDataContainer :=
  match r with
  | .mk init .null _ => .mk init .null (init.map (fun s => adv s t1))
  | .mk init (.ref q) _ =>
      .mk init (.ref q) (finalStateOf (propagateModel adv q) b)
termination_by structural r

end

/-- One configuration call of the public interface made before `propagate()`
is invoked (spec lifecycle: "constructed, configured (bodies, states,
sub-propagators, interval, sampling), then `propagate()`"). -/
inductive ConfigStep where
  | stepSetStart (v : ℚ)
  | stepSetEnd (v : ℚ)
  | stepSetFixedOut (v : ℚ)
  | stepAddBody (b : ℕ)
  | stepSetInitialState (b : ℕ) (s : State)
  | stepSetPropagator (b : ℕ) (q : Propagator)

/-- Apply one configuration call; a call that signals `ConfigurationError`
leaves the propagator as it was (the error is "a local, recoverable
condition the caller is expected to check", spec §7). -/
def applyStep (p : Propagator) : ConfigStep → Propagator
  | .stepSetStart v => setPropagationIntervalStart p v
  | .stepSetEnd v => setPropagationIntervalEnd p v
  | .stepSetFixedOut v => setFixedOutputInterval p v
  | .stepAddBody b => addBody p b
  | .stepSetInitialState b s =>
      match setInitialState p b s with
      | .ok p' => p'
      | .error _ => p
  | .stepSetPropagator b q =>
      match setPropagator p b q with
      | .ok p' => p'
      | .error _ => p

/-- Apply a sequence of configuration calls in order. -/
def applySteps (p : Propagator) (steps : List ConfigStep) : Propagator :=
  steps.foldl applyStep p

/-- One call to an interval-bound setter: `inl a` is
`setPropagationIntervalStart(a)`, `inr b` is `setPropagationIntervalEnd(b)`. -/
def applyIntervalCall (p : Propagator) : Sum ℚ ℚ → Propagator
  | .inl a => setPropagationIntervalStart p a
  | .inr b => setPropagationIntervalEnd p b

/-- A sequence of interval-bound setter calls, in any order, possibly
repeating either setter. -/
def applyIntervalCalls (p : Propagator) (calls : List (Sum ℚ ℚ)) : Propagator :=
  calls.foldl applyIntervalCall p

/-- The last value passed to `setPropagationIntervalStart` in `calls`,
defaulting to `a` when the sequence never calls it. -/
def lastStartValue (a : ℚ) (calls : List (Sum ℚ ℚ)) : ℚ :=
  calls.foldl (fun acc c => match c with | .inl v => v | .inr _ => acc) a

/-- The last value passed to `setPropagationIntervalEnd` in `calls`,
defaulting to `b` when the sequence never calls it. -/
def lastEndValue (b : ℚ) (calls : List (Sum ℚ ℚ)) : ℚ :=
  calls.foldl (fun acc c => match c with | .inl _ => acc | .inr v => v) b

/-- Modelled from the spec: the `operator<<` overload (declared propagator.h
lines 178-179; body not under src/) — "a diagnostic rendering operation
produces a human-readable summary of the Propagator's configuration (interval
bounds, registered body count) — a side-effect-free, non-owning, read-only
formatting operation". The C++ signature takes the stream and a `Propagator*`
and returns the stream; the model returns the appended stream together with
the propagator object the pointer refers to after the call. -/
def insertIntoStream (stream : String) (p : Propagator) : String × Propagator :=
  (stream ++ "Propagator: interval [" ++ toString p.propagationIntervalStart_
    ++ ", " ++ toString p.propagationIntervalEnd_ ++ "], bodies: "
    ++ toString p.bodiesToPropagate_.size, p)

/-- `std::map::insert_or_assign` on a history map a caller holds: assigns
through an existing key or inserts a new entry at the front of the bucket
list (entry order is irrelevant to the claims about it). -/
def histInsert (t : ℚ) (s : State) (h : List (ℚ × State)) : List (ℚ × State) :=
  if h.any (fun e => e.1 = t) then
    h.map (fun e => if e.1 = t then (t, s) else e)
  else (t, s) :: h

/-- `std::map::erase` on a history map a caller holds. -/
def histErase (t : ℚ) (h : List (ℚ × State)) : List (ℚ × State) :=
  h.filter (fun e => e.1 ≠ t)

/-! ### Basic reduction lemmas -/

@[simp] theorem start_mk (a b c : ℚ) (m : RecordMap) (h : List (ℚ × State)) :
    Propagator.propagationIntervalStart_ (.mk a b c m h) = a := rfl

@[simp] theorem end_mk (a b c : ℚ) (m : RecordMap) (h : List (ℚ × State)) :
    Propagator.propagationIntervalEnd_ (.mk a b c m h) = b := rfl

@[simp] theorem fixedOut_mk (a b c : ℚ) (m : RecordMap) (h : List (ℚ × State)) :
    Propagator.fixedOutputInterval_ (.mk a b c m h) = c := rfl

@[simp] theorem bodies_mk (a b c : ℚ) (m : RecordMap) (h : List (ℚ × State)) :
    Propagator.bodiesToPropagate_ (.mk a b c m h) = m := rfl

@[simp] theorem history_mk (a b c : ℚ) (m : RecordMap) (h : List (ℚ × State)) :
    Propagator.propagationHistory_ (.mk a b c m h) = h := rfl

@[simp] theorem initState_mk (i : Option State) (n : NestedPropagator)
    (f : Option State) :
    PropagatorDataContainer.pointerToInitialState (.mk i n f) = i := rfl

@[simp] theorem nested_mk (i : Option State) (n : NestedPropagator)
    (f : Option State) :
    PropagatorDataContainer.pointerToPropagator (.mk i n f) = n := rfl

@[simp] theorem finalState_mk (i : Option State) (n : NestedPropagator)
    (f : Option State) :
    PropagatorDataContainer.finalState (.mk i n f) = f := rfl

namespace RecordMap

@[simp] theorem lookup_nil (b : ℕ) : RecordMap.nil.lookup b = none := rfl

@[simp] theorem lookup_cons (b' : ℕ) (r : PropagatorDataContainer)
    (rest : RecordMap) (b : ℕ) :
    (RecordMap.cons b' r rest).lookup b =
      if b' = b then some r else rest.lookup b := rfl

@[simp] theorem countKey_nil (b : ℕ) : RecordMap.nil.countKey b = 0 := rfl

@[simp] theorem countKey_cons (b' : ℕ) (r : PropagatorDataContainer)
    (rest : RecordMap) (b : ℕ) :
    (RecordMap.cons b' r rest).countKey b =
      (if b' = b then 1 else 0) + rest.countKey b := rfl

/-- A key is registered exactly when at least one record carries it. -/
theorem containsBody_iff_countKey :
    ∀ (m : RecordMap) (b : ℕ), m.containsBody b = true ↔ 1 ≤ m.countKey b
  | .nil, b => by simp [containsBody]
  | .cons b' r rest, b => by
      by_cases hb : b' = b
      · simp [containsBody, hb]
      · simpa [containsBody, hb] using containsBody_iff_countKey rest b

/-- An unregistered key has no record at all. -/
theorem countKey_eq_zero_of_not_contains (m : RecordMap) (b : ℕ)
    (h : m.containsBody b = false) : m.countKey b = 0 := by
  by_contra hne
  have h1 : 1 ≤ m.countKey b := Nat.one_le_iff_ne_zero.mpr hne
  have h2 := (containsBody_iff_countKey m b).mpr h1
  simp [h] at h2

/-- `setRecord` rewrites the record under an existing key and nothing else. -/
theorem lookup_setRecord :
    ∀ (m : RecordMap) (b : ℕ) (r' : PropagatorDataContainer) (c : ℕ),
      (m.setRecord b r').lookup c =
        if c = b then (m.lookup b).map (fun _ => r') else m.lookup c
  | .nil, b, r', c => by simp [setRecord]
  | .cons b' r rest, b, r', c => by
      have ih := lookup_setRecord rest b r' c
      rcases eq_or_ne c b with hcb | hcb
      · subst hcb
        by_cases hb : b' = c <;> simp_all [setRecord]
      · have hbc : ¬ b = c := fun h => hcb h.symm
        by_cases hb : b' = c <;> by_cases hb2 : b' = b <;>
          simp_all [setRecord]

/-- `setRecord` does not change how many records a key has. -/
theorem countKey_setRecord :
    ∀ (m : RecordMap) (b : ℕ) (r' : PropagatorDataContainer) (c : ℕ),
      (m.setRecord b r').countKey c = m.countKey c
  | .nil, b, r', c => by simp [setRecord]
  | .cons b' r rest, b, r', c => by
      have ih := countKey_setRecord rest b r' c
      by_cases hb : b' = b <;> simp_all [setRecord]

end RecordMap

/-- `propagate()` keeps the registry keyed as configured and rewrites each
record through `propagateRecord` with its own key. -/
theorem lookup_propagateRecords (adv : State → ℚ → State) (t1 : ℚ) :
    ∀ (m : RecordMap) (b : ℕ),
      (propagateRecords adv t1 m).lookup b =
        (m.lookup b).map (propagateRecord adv t1 b)
  | .nil, b => by simp [propagateRecords]
  | .cons b' r rest, b => by
      have ih := lookup_propagateRecords adv t1 rest b
      by_cases hb : b' = b <;> simp_all [propagateRecords]

/-- `propagate()` does not register or unregister bodies. -/
theorem containsBody_propagateRecords (adv : State → ℚ → State) (t1 : ℚ)
    (m : RecordMap) (b : ℕ) :
    (propagateRecords adv t1 m).containsBody b = m.containsBody b := by
  unfold RecordMap.containsBody
  rw [lookup_propagateRecords]
  cases m.lookup b <;> simp

/-- Characterisation of the sampling instants: exactly the times
`t0 + k·Δ` (k : ℕ) that do not exceed `t1`. -/
theorem mem_sampleTimes (t0 t1 delta : ℚ) (hd : 0 < delta) (t : ℚ) :
    t ∈ sampleTimes t0 t1 delta ↔
      ∃ k : ℕ, t = t0 + (k : ℚ) * delta ∧ t ≤ t1 := by
  unfold sampleTimes
  by_cases ht : t0 ≤ t1
  · rw [if_pos ⟨hd, ht⟩]
    constructor
    · intro hmem
      rw [List.mem_map] at hmem
      obtain ⟨k, hk, rfl⟩ := hmem
      rw [List.mem_range] at hk
      refine ⟨k, rfl, ?_⟩
      have hnn : (0 : ℚ) ≤ (t1 - t0) / delta :=
        div_nonneg (by linarith) hd.le
      have hfl : (0 : ℤ) ≤ ⌊(t1 - t0) / delta⌋ :=
        Int.floor_nonneg.mpr hnn
      have hk' : (k : ℤ) ≤ ⌊(t1 - t0) / delta⌋ := by
        have := Int.toNat_of_nonneg hfl
        omega
      have hkq : (k : ℚ) ≤ (t1 - t0) / delta := by
        have h2 := Int.le_floor.mp hk'
        push_cast at h2
        exact h2
      have h3 := (le_div_iff₀ hd).mp hkq
      linarith
    · rintro ⟨k, rfl, hle⟩
      rw [List.mem_map]
      refine ⟨k, ?_, rfl⟩
      rw [List.mem_range]
      have hkq : (k : ℚ) ≤ (t1 - t0) / delta :=
        (le_div_iff₀ hd).mpr (by linarith)
      have hk' : (k : ℤ) ≤ ⌊(t1 - t0) / delta⌋ :=
        Int.le_floor.mpr (by push_cast; exact hkq)
      have hfl : (0 : ℤ) ≤ ⌊(t1 - t0) / delta⌋ :=
        le_trans (Int.ofNat_nonneg k) hk'
      have := Int.toNat_of_nonneg hfl
      omega
  · rw [if_neg (by tauto)]
    simp only [List.not_mem_nil, false_iff]
    rintro ⟨k, rfl, hle⟩
    have hk0 : (0 : ℚ) ≤ (k : ℚ) * delta :=
      mul_nonneg (by positivity) hd.le
    have := not_le.mp ht
    linarith

/-- The sampling instants are strictly ascending. -/
theorem pairwise_sampleTimes (t0 t1 delta : ℚ) :
    (sampleTimes t0 t1 delta).Pairwise (· < ·) := by
  unfold sampleTimes
  split
  · rename_i hcond
    rw [List.pairwise_map]
    refine (List.pairwise_lt_range _).imp ?_
    intro a b hab
    have hab' : (a : ℚ) < (b : ℚ) := by exact_mod_cast hab
    have := mul_lt_mul_of_pos_right hab' hcond.1
    linarith
  · exact List.Pairwise.nil

/-- With sampling enabled and a trajectory to sample, the history keys of a
run are exactly the sampling instants. -/
theorem historyKeys_eq_sampleTimes (adv : State → ℚ → State)
    (t0 t1 delta : ℚ) (m : RecordMap) (s : State)
    (hs : firstInitialState m = some s) :
    (sampleHistory adv t0 t1 delta m).map Prod.fst =
      sampleTimes t0 t1 delta := by
  unfold sampleHistory
  rw [hs]
  have hmap : ∀ l : List ℚ,
      (l.map (fun t => (t, adv s t))).map Prod.fst = l := by
    intro l
    induction l with
    | nil => rfl
    | cons x xs ih => simp [ih]
  exact hmap _

/-- With sampling disabled (`fixedOutputInterval_` zero) a run stores no
history at all. -/
theorem sampleTimes_zero (t0 t1 : ℚ) : sampleTimes t0 t1 0 = [] := by
  unfold sampleTimes
  rw [if_neg]
  rintro ⟨h0, _⟩
  exact lt_irrefl 0 h0

theorem sampleHistory_zero (adv : State → ℚ → State) (t0 t1 : ℚ)
    (m : RecordMap) : sampleHistory adv t0 t1 0 m = [] := by
  unfold sampleHistory
  rw [sampleTimes_zero]
  cases firstInitialState m <;> simp

/-- All final-state slots of the registry are unpopulated. -/
def NoFinals (m : RecordMap) : Prop :=
  ∀ b r, m.lookup b = some r → r.finalState = none

/-- Every configuration call keeps final-state slots unpopulated: only
`propagate()` fills them. -/
theorem noFinals_applyStep (p : Propagator) (st : ConfigStep)
    (h : NoFinals p.bodiesToPropagate_) :
    NoFinals (applyStep p st).bodiesToPropagate_ := by
  cases p with
  | mk t0 t1 d m hist =>
    cases st with
    | stepSetStart v => simpa [applyStep, setPropagationIntervalStart] using h
    | stepSetEnd v => simpa [applyStep, setPropagationIntervalEnd] using h
    | stepSetFixedOut v => simpa [applyStep, setFixedOutputInterval] using h
    | stepAddBody b =>
        by_cases hb : m.containsBody b
        · simpa [applyStep, addBody, hb] using h
        · intro c r hc
          simp only [applyStep, addBody, hb, if_false, Bool.false_eq_true,
            bodies_mk, RecordMap.lookup_cons] at hc
          by_cases hbc : b = c
          · rw [if_pos hbc] at hc
            cases hc
            rfl
          · rw [if_neg hbc] at hc
            exact h c r hc
    | stepSetInitialState b s =>
        cases hlk : m.lookup b with
        | none => simpa [applyStep, setInitialState, hlk] using h
        | some r0 =>
            intro c r hc
            simp only [applyStep, setInitialState, hlk, bodies_mk,
              RecordMap.lookup_setRecord] at hc
            by_cases hcb : c = b
            · rw [if_pos hcb] at hc
              simp only [Option.map_some'] at hc
              cases hc
              simpa using h b r0 hlk
            · rw [if_neg hcb] at hc
              exact h c r hc
    | stepSetPropagator b q =>
        cases hlk : m.lookup b with
        | none => simpa [applyStep, setPropagator, hlk] using h
        | some r0 =>
            intro c r hc
            simp only [applyStep, setPropagator, hlk, bodies_mk,
              RecordMap.lookup_setRecord] at hc
            by_cases hcb : c = b
            · rw [if_pos hcb] at hc
              simp only [Option.map_some'] at hc
              cases hc
              simpa using h b r0 hlk
            · rw [if_neg hcb] at hc
              exact h c r hc

/-- `NoFinals` holds along any configuration sequence. -/
theorem noFinals_applySteps :
    ∀ (steps : List ConfigStep) (p : Propagator),
      NoFinals p.bodiesToPropagate_ →
      NoFinals (applySteps p steps).bodiesToPropagate_
  | [], _, h => h
  | st :: rest, p, h =>
      noFinals_applySteps rest (applyStep p st) (noFinals_applyStep p st h)

/-- Every configuration call keeps the registry at no more than one record
per key. -/
theorem dedup_applyStep (p : Propagator) (st : ConfigStep)
    (h : ∀ c, p.bodiesToPropagate_.countKey c ≤ 1) :
    ∀ c, (applyStep p st).bodiesToPropagate_.countKey c ≤ 1 := by
  intro c
  cases p with
  | mk t0 t1 d m hist =>
    cases st with
    | stepSetStart v => simpa [applyStep, setPropagationIntervalStart] using h c
    | stepSetEnd v => simpa [applyStep, setPropagationIntervalEnd] using h c
    | stepSetFixedOut v => simpa [applyStep, setFixedOutputInterval] using h c
    | stepAddBody b =>
        by_cases hb : m.containsBody b
        · simpa [applyStep, addBody, hb] using h c
        · have h0 : m.countKey b = 0 :=
            RecordMap.countKey_eq_zero_of_not_contains m b (by simpa using hb)
          by_cases hbc : b = c
          · subst hbc
            simp [applyStep, addBody, hb, h0]
          · have := h c
            simpa [applyStep, addBody, hb, hbc] using this
    | stepSetInitialState b s =>
        cases hlk : m.lookup b with
        | none => simpa [applyStep, setInitialState, hlk] using h c
        | some r0 =>
            simpa [applyStep, setInitialState, hlk,
              RecordMap.countKey_setRecord] using h c
    | stepSetPropagator b q =>
        cases hlk : m.lookup b with
        | none => simpa [applyStep, setPropagator, hlk] using h c
        | some r0 =>
            simpa [applyStep, setPropagator, hlk,
              RecordMap.countKey_setRecord] using h c

/-- The one-record-per-key bound holds along any configuration sequence. -/
theorem dedup_applySteps :
    ∀ (steps : List ConfigStep) (p : Propagator),
      (∀ c, p.bodiesToPropagate_.countKey c ≤ 1) →
      ∀ c, (applySteps p steps).bodiesToPropagate_.countKey c ≤ 1
  | [], _, h => h
  | st :: rest, p, h =>
      dedup_applySteps rest (applyStep p st) (dedup_applyStep p st h)

/-- Re-adding a registered body is a no-op on the whole propagator. -/
theorem addBody_of_contains (p : Propagator) (b : ℕ)
    (h : p.bodiesToPropagate_.containsBody b = true) : addBody p b = p := by
  cases p with
  | mk t0 t1 d m hist => simp_all [addBody]

/-- `addBody` registers its body. -/
theorem containsBody_addBody (p : Propagator) (b : ℕ) :
    (addBody p b).bodiesToPropagate_.containsBody b = true := by
  cases p with
  | mk t0 t1 d m hist =>
    by_cases h : m.containsBody b
    · simp [addBody, h]
    · have hf : m.containsBody b = false := by simpa using h
      simp only [addBody, hf, Bool.false_eq_true, if_false]
      simp [RecordMap.containsBody]

/-! ### Concrete fixtures used by witnesses and counterexamples -/

/-- A concrete advancement method for witnesses: the advanced state is
defined at the requested time and keeps the numeric vector. -/
def advWit : State → ℚ → State := fun s t => ⟨t, s.vec⟩

/-- Spec §8 scenario: interval [0, 100], Δ = 25, one body with an initial
state. -/
def pWit1 : Propagator :=
  .mk 0 100 25 (.cons 0 (.mk (some ⟨0, [1]⟩) .null none) .nil) []

/-- Two registered bodies with initial states, interval [0, 100], Δ = 25. -/
def pTwoBodies : Propagator :=
  .mk 0 100 25
    (.cons 0 (.mk (some ⟨0, [1]⟩) .null none)
      (.cons 1 (.mk (some ⟨0, [2]⟩) .null none) .nil))
    []

/-- Spec §8 scenario, nested part: a delegate propagator over [0, 50] with
body 1 registered, sampling disabled. -/
def pDelegateInner : Propagator :=
  .mk 0 50 0 (.cons 1 (.mk (some ⟨0, [2]⟩) .null none) .nil) []

/-- Spec §8 scenario, owner part: interval [0, 100], sampling disabled,
body 0 undelegated and body 1 delegated to `pDelegateInner`. -/
def pDelegateOwner : Propagator :=
  .mk 0 100 0
    (.cons 0 (.mk (some ⟨0, [1]⟩) .null none)
      (.cons 1 (.mk (some ⟨0, [2]⟩) (.ref pDelegateInner) none) .nil))
    []

/-- One undelegated body with an initial state, sampling disabled. -/
def pZeroWit : Propagator :=
  .mk 0 100 0 (.cons 5 (.mk (some ⟨0, [3]⟩) .null none) .nil) []

/-- A propagator whose stored history is nonempty, with body 3 registered. -/
def pHistWit : Propagator :=
  .mk 0 1 0 (.cons 3 (.mk none .null none) .nil) [(0, ⟨0, []⟩)]

/-! ### The claims -/

/-- C1: for every Propagator configured with `fixedOutputInterval_` = Δ > 0
and interval bounds t0 = `propagationIntervalStart_`, t1 =
`propagationIntervalEnd_` (and a registered trajectory to sample), after
`propagate()` the history mapping's keys are exactly the set
{t0, t0+Δ, t0+2Δ, ...} restricted to values ≤ t1, strictly ascending with
no duplicates. -/
theorem history_keys_are_fixed_interval_grid (adv : State → ℚ → State)
    (p : Propagator) (hd : 0 < p.fixedOutputInterval_)
    (hs : (firstInitialState p.bodiesToPropagate_).isSome = true) :
    (∀ t : ℚ,
        t ∈ (propagateModel adv p).propagationHistory_.map Prod.fst ↔
          ∃ k : ℕ, t = p.propagationIntervalStart_ +
              (k : ℚ) * p.fixedOutputInterval_ ∧
            t ≤ p.propagationIntervalEnd_) ∧
    ((propagateModel adv p).propagationHistory_.map Prod.fst).Pairwise (· < ·) ∧
    ((propagateModel adv p).propagationHistory_.map Prod.fst).Nodup := by
  obtain ⟨t0, t1, delta, m, hist⟩ := p
  simp only [fixedOut_mk] at hd
  simp only [bodies_mk] at hs
  obtain ⟨s, hs'⟩ := Option.isSome_iff_exists.mp hs
  have hkeys :
      (propagateModel adv (Propagator.mk t0 t1 delta m hist)).propagationHistory_.map
          Prod.fst = sampleTimes t0 t1 delta := by
    simp only [propagateModel, history_mk]
    exact historyKeys_eq_sampleTimes adv t0 t1 delta m s hs'
  refine ⟨?_, ?_, ?_⟩
  · intro t
    rw [hkeys]
    simp only [start_mk, end_mk, fixedOut_mk]
    exact mem_sampleTimes t0 t1 delta hd t
  · rw [hkeys]
    exact pairwise_sampleTimes t0 t1 delta
  · rw [hkeys]
    exact List.Pairwise.imp (fun hlt => ne_of_lt hlt)
      (pairwise_sampleTimes t0 t1 delta)

/-- Witness for C1 at the spec §8 scenario (interval [0, 100], Δ = 25):
the hypotheses hold for `pWit1`, the conclusion follows by the theorem, and
the sampled keys are concretely {0, 25, 50, 75, 100}. -/
theorem history_keys_are_fixed_interval_grid_witness :
    ((0 : ℚ) < pWit1.fixedOutputInterval_) ∧
    ((firstInitialState pWit1.bodiesToPropagate_).isSome = true) ∧
    ((∀ t : ℚ,
        t ∈ (propagateModel advWit pWit1).propagationHistory_.map Prod.fst ↔
          ∃ k : ℕ, t = pWit1.propagationIntervalStart_ +
              (k : ℚ) * pWit1.fixedOutputInterval_ ∧
            t ≤ pWit1.propagationIntervalEnd_) ∧
      ((propagateModel advWit pWit1).propagationHistory_.map
          Prod.fst).Pairwise (· < ·) ∧
      ((propagateModel advWit pWit1).propagationHistory_.map Prod.fst).Nodup) ∧
    (propagateModel advWit pWit1).propagationHistory_.map Prod.fst =
      [0, 25, 50, 75, 100] := by
  have h4 : Int.toNat 4 = 4 := rfl
  refine ⟨by norm_num [pWit1], rfl,
    history_keys_are_fixed_interval_grid advWit pWit1 (by norm_num [pWit1]) rfl,
    ?_⟩
  norm_num [propagateModel, sampleHistory, firstInitialState, sampleTimes,
    h4, List.range_succ, pWit1, advWit]

/-- C2: for any body never passed to `addBody`, each of `setInitialState`,
`setPropagator`, `getFinalState` and
`getPropagationHistoryAtFixedOutputIntervals` referencing it signals
`ConfigurationError`, and the failed call leaves the propagator — in
particular its bodies-to-propagate registry — unchanged, creating no
implicit registration. -/
theorem unregistered_body_signals_configuration_error (p : Propagator)
    (b : ℕ) (s : State) (q : Propagator)
    (h : p.bodiesToPropagate_.containsBody b = false) :
    setInitialState p b s = .error .configurationError ∧
    setPropagator p b q = .error .configurationError ∧
    getFinalState p b = .error .configurationError ∧
    getPropagationHistoryAtFixedOutputIntervals p b =
      .error .configurationError ∧
    applyStep p (.stepSetInitialState b s) = p ∧
    applyStep p (.stepSetPropagator b q) = p := by
  obtain ⟨t0, t1, d, m, hist⟩ := p
  simp only [bodies_mk] at h
  have hlk : m.lookup b = none := by
    cases hcase : m.lookup b with
    | none => rfl
    | some r =>
        rw [RecordMap.containsBody, hcase] at h
        simp at h
  refine ⟨?_, ?_, ?_, ?_, ?_, ?_⟩
  · simp [setInitialState, hlk]
  · simp [setPropagator, hlk]
  · simp [getFinalState, hlk]
  · simp [getPropagationHistoryAtFixedOutputIntervals, RecordMap.containsBody,
      hlk]
  · simp [applyStep, setInitialState, hlk]
  · simp [applyStep, setPropagator, hlk]

/-- Witness for C2: body 0 was never added to a fresh propagator, so every
operation referencing it fails with `ConfigurationError` and registers
nothing. -/
theorem unregistered_body_signals_configuration_error_witness :
    (defaultPropagator.bodiesToPropagate_.containsBody 0 = false) ∧
    (setInitialState defaultPropagator 0 ⟨0, []⟩ =
        .error .configurationError ∧
      setPropagator defaultPropagator 0 defaultPropagator =
        .error .configurationError ∧
      getFinalState defaultPropagator 0 = .error .configurationError ∧
      getPropagationHistoryAtFixedOutputIntervals defaultPropagator 0 =
        .error .configurationError ∧
      applyStep defaultPropagator (.stepSetInitialState 0 ⟨0, []⟩) =
        defaultPropagator ∧
      applyStep defaultPropagator (.stepSetPropagator 0 defaultPropagator) =
        defaultPropagator) :=
  ⟨rfl, unregistered_body_signals_configuration_error defaultPropagator 0
    ⟨0, []⟩ defaultPropagator rfl⟩

/-- Counterexample to C3 as stated: the class holds a single
`propagationHistory_` map (propagator.h line 218), so after one
`propagate()` over two distinct registered bodies the getter returns the
same nonempty mapping for both — histories of distinct registered bodies
are not distinct mappings. -/
theorem per_body_history_counterexample :
    (propagateModel advWit pTwoBodies).bodiesToPropagate_.containsBody 0 =
        true ∧
    (propagateModel advWit pTwoBodies).bodiesToPropagate_.containsBody 1 =
        true ∧
    (0 : ℕ) ≠ 1 ∧
    getPropagationHistoryAtFixedOutputIntervals
        (propagateModel advWit pTwoBodies) 0 =
      getPropagationHistoryAtFixedOutputIntervals
        (propagateModel advWit pTwoBodies) 1 ∧
    getPropagationHistoryAtFixedOutputIntervals
        (propagateModel advWit pTwoBodies) 0 ≠ .ok [] := by
  have h4 : Int.toNat 4 = 4 := rfl
  have heval : (propagateModel advWit pTwoBodies).propagationHistory_ =
      [(0, ⟨0, [1]⟩), (25, ⟨25, [1]⟩), (50, ⟨50, [1]⟩), (75, ⟨75, [1]⟩),
        (100, ⟨100, [1]⟩)] := by
    norm_num [propagateModel, sampleHistory, firstInitialState, sampleTimes,
      h4, List.range_succ, pTwoBodies, advWit]
  have hcont :
      (propagateModel advWit pTwoBodies).bodiesToPropagate_.containsBody 0 =
        true := rfl
  refine ⟨rfl, rfl, by decide, rfl, ?_⟩
  simp [getPropagationHistoryAtFixedOutputIntervals, heval, hcont]

/-- C3 as amended: the Propagator maintains a single time-ordered history
mapping for the propagation run, and
`getPropagationHistoryAtFixedOutputIntervals(B)` returns that one shared
mapping for every registered body B, so the mappings returned for two
registered bodies are equal, not distinct. -/
theorem shared_history_for_all_registered_bodies (adv : State → ℚ → State)
    (p : Propagator) (a b : ℕ)
    (ha : p.bodiesToPropagate_.containsBody a = true)
    (hb : p.bodiesToPropagate_.containsBody b = true) :
    getPropagationHistoryAtFixedOutputIntervals (propagateModel adv p) a =
      .ok ((propagateModel adv p).propagationHistory_) ∧
    getPropagationHistoryAtFixedOutputIntervals (propagateModel adv p) a =
      getPropagationHistoryAtFixedOutputIntervals (propagateModel adv p) b := by
  obtain ⟨t0, t1, d, m, hist⟩ := p
  simp only [bodies_mk] at ha hb
  have ha' : (propagateRecords adv t1 m).containsBody a = true := by
    rw [containsBody_propagateRecords]
    exact ha
  have hb' : (propagateRecords adv t1 m).containsBody b = true := by
    rw [containsBody_propagateRecords]
    exact hb
  constructor <;>
    simp [getPropagationHistoryAtFixedOutputIntervals, propagateModel, ha', hb']

/-- Witness for the amended C3: both registered bodies of `pTwoBodies`
receive the one shared history mapping. -/
theorem shared_history_for_all_registered_bodies_witness :
    (pTwoBodies.bodiesToPropagate_.containsBody 0 = true) ∧
    (pTwoBodies.bodiesToPropagate_.containsBody 1 = true) ∧
    (getPropagationHistoryAtFixedOutputIntervals
        (propagateModel advWit pTwoBodies) 0 =
      .ok ((propagateModel advWit pTwoBodies).propagationHistory_) ∧
    getPropagationHistoryAtFixedOutputIntervals
        (propagateModel advWit pTwoBodies) 0 =
      getPropagationHistoryAtFixedOutputIntervals
        (propagateModel advWit pTwoBodies) 1) :=
  ⟨rfl, rfl,
    shared_history_for_all_registered_bodies advWit pTwoBodies 0 1 rfl rfl⟩

/-- C4: for every body registered by any configuration sequence (in
particular `addBody` followed by `setInitialState`), a `getFinalState`
query made before any `propagate()` call signals `NotYetComputedError`
rather than crashing or fabricating a state. -/
theorem final_state_before_propagate_signals_not_yet_computed
    (steps : List ConfigStep) (b : ℕ)
    (hreg : (applySteps defaultPropagator steps).bodiesToPropagate_.containsBody
        b = true) :
    getFinalState (applySteps defaultPropagator steps) b =
      .error .notYetComputedError := by
  have hnf : NoFinals (applySteps defaultPropagator steps).bodiesToPropagate_ :=
    noFinals_applySteps steps defaultPropagator
      (by
        intro c r hcr
        simp [defaultPropagator] at hcr)
  cases hlk : (applySteps defaultPropagator steps).bodiesToPropagate_.lookup b with
  | none =>
      rw [RecordMap.containsBody, hlk] at hreg
      simp at hreg
  | some r => simp [getFinalState, hlk, hnf b r hlk]

/-- Witness for C4: body 7 is added and given an initial state; before any
`propagate()` the final-state query reports `NotYetComputedError`. -/
theorem final_state_before_propagate_signals_not_yet_computed_witness :
    ((applySteps defaultPropagator
        [.stepAddBody 7, .stepSetInitialState 7 ⟨0, [1]⟩]).bodiesToPropagate_.containsBody
        7 = true) ∧
    getFinalState
        (applySteps defaultPropagator
          [.stepAddBody 7, .stepSetInitialState 7 ⟨0, [1]⟩]) 7 =
      .error .notYetComputedError :=
  ⟨rfl, final_state_before_propagate_signals_not_yet_computed
    [.stepAddBody 7, .stepSetInitialState 7 ⟨0, [1]⟩] 7 rfl⟩

/-- Counterexample to C5 as stated: body 1 has a registered initial state
and the owner has `fixedOutputInterval_` = 0, yet after `propagate()` its
final state is defined at time 50 — the delegate's own interval end — and
not at the owner's `propagationIntervalEnd_` = 100 (the spec's composite
delegation rule overrides the final-state-at-interval-end rule for
delegated bodies). The history part of the claim does hold. -/
theorem final_state_at_interval_end_counterexample :
    pDelegateOwner.fixedOutputInterval_ = 0 ∧
    pDelegateOwner.bodiesToPropagate_.lookup 1 =
      some (.mk (some ⟨0, [2]⟩) (.ref pDelegateInner) none) ∧
    getPropagationHistoryAtFixedOutputIntervals
        (propagateModel advWit pDelegateOwner) 1 = .ok [] ∧
    getFinalState (propagateModel advWit pDelegateOwner) 1 =
      .ok ⟨50, [2]⟩ ∧
    pDelegateOwner.propagationIntervalEnd_ = 100 ∧
    (⟨50, [2]⟩ : State).epoch ≠ pDelegateOwner.propagationIntervalEnd_ := by
  refine ⟨rfl, rfl, rfl, rfl, rfl, ?_⟩
  intro hcontra
  simp only [pDelegateOwner, end_mk] at hcontra
  norm_num at hcontra

/-- C5 as amended: for every body with a registered initial state and no
nested propagator assigned, when `fixedOutputInterval_` is zero, after
`propagate()` the history getter returns an empty mapping and
`getFinalState` returns the trajectory state advanced to
`propagationIntervalEnd_` (the state defined at that time). -/
theorem sampling_disabled_empty_history_final_at_interval_end
    (adv : State → ℚ → State) (p : Propagator) (b : ℕ) (s : State)
    (f : Option State) (hd : p.fixedOutputInterval_ = 0)
    (hrec : p.bodiesToPropagate_.lookup b = some (.mk (some s) .null f)) :
    getPropagationHistoryAtFixedOutputIntervals (propagateModel adv p) b =
      .ok [] ∧
    getFinalState (propagateModel adv p) b =
      .ok (adv s p.propagationIntervalEnd_) := by
  obtain ⟨t0, t1, d, m, hist⟩ := p
  simp only [fixedOut_mk] at hd
  subst hd
  simp only [bodies_mk] at hrec
  have hcont : m.containsBody b = true := by
    rw [RecordMap.containsBody, hrec]
    rfl
  constructor
  · have hcont' : (propagateRecords adv t1 m).containsBody b = true := by
      rw [containsBody_propagateRecords]
      exact hcont
    simp [getPropagationHistoryAtFixedOutputIntervals, propagateModel, hcont',
      sampleHistory_zero]
  · simp [getFinalState, propagateModel, lookup_propagateRecords, hrec,
      propagateRecord]

/-- Witness for the amended C5: the undelegated body 5 of `pZeroWit` (Δ = 0,
interval [0, 100]) ends with an empty history and a final state defined at
time 100. -/
theorem sampling_disabled_empty_history_final_at_interval_end_witness :
    (pZeroWit.fixedOutputInterval_ = 0) ∧
    (pZeroWit.bodiesToPropagate_.lookup 5 =
      some (.mk (some ⟨0, [3]⟩) .null none)) ∧
    (getPropagationHistoryAtFixedOutputIntervals
        (propagateModel advWit pZeroWit) 5 = .ok [] ∧
      getFinalState (propagateModel advWit pZeroWit) 5 =
        .ok (advWit ⟨0, [3]⟩ pZeroWit.propagationIntervalEnd_)) ∧
    getFinalState (propagateModel advWit pZeroWit) 5 = .ok ⟨100, [3]⟩ :=
  ⟨rfl, rfl,
    sampling_disabled_empty_history_final_at_interval_end advWit pZeroWit 5
      ⟨0, [3]⟩ none rfl rfl,
    rfl⟩

/-- C6: for every body assigned a nested propagator P, the final state the
owning Propagator's `propagate()` stores for that body equals the final
state P itself computes for it — P's own configured interval bounds govern
that body's trajectory. -/
theorem delegated_body_final_state_equals_nested_result
    (adv : State → ℚ → State) (p : Propagator) (b : ℕ)
    (init f : Option State) (P : Propagator)
    (hrec : p.bodiesToPropagate_.lookup b = some (.mk init (.ref P) f)) :
    finalStateOf (propagateModel adv p) b =
      finalStateOf (propagateModel adv P) b := by
  obtain ⟨t0, t1, d, m, hist⟩ := p
  simp only [bodies_mk] at hrec
  simp [finalStateOf, propagateModel, lookup_propagateRecords, hrec,
    propagateRecord]

/-- Witness for C6 at the spec §8 scenario: owner over [0, 100] with
undelegated body 0 and body 1 delegated to `pDelegateInner` over [0, 50];
body 1's final state equals the delegate's own result and is defined at
time 50 while body 0's is defined at time 100. -/
theorem delegated_body_final_state_equals_nested_result_witness :
    (pDelegateOwner.bodiesToPropagate_.lookup 1 =
      some (.mk (some ⟨0, [2]⟩) (.ref pDelegateInner) none)) ∧
    finalStateOf (propagateModel advWit pDelegateOwner) 1 =
      finalStateOf (propagateModel advWit pDelegateInner) 1 ∧
    finalStateOf (propagateModel advWit pDelegateOwner) 1 =
      some ⟨50, [2]⟩ ∧
    finalStateOf (propagateModel advWit pDelegateOwner) 0 =
      some ⟨100, [1]⟩ ∧
    pDelegateOwner.propagationIntervalStart_ = 0 ∧
    pDelegateOwner.propagationIntervalEnd_ = 100 ∧
    pDelegateInner.propagationIntervalStart_ = 0 ∧
    pDelegateInner.propagationIntervalEnd_ = 50 :=
  ⟨rfl,
    delegated_body_final_state_equals_nested_result advWit pDelegateOwner 1
      (some ⟨0, [2]⟩) none pDelegateInner rfl,
    rfl, rfl, rfl, rfl, rfl, rfl⟩

/-- C7: along every configuration sequence the registry holds at most one
record per body; `addBody` leaves exactly one record for the added body,
and re-adding an already registered body updates in place (here: leaves the
registry unchanged) rather than appending a second record. -/
theorem registry_one_record_per_body (steps : List ConfigStep) (b : ℕ) :
    (applySteps defaultPropagator steps).bodiesToPropagate_.countKey b ≤ 1 ∧
    (addBody (applySteps defaultPropagator steps)
        b).bodiesToPropagate_.countKey b = 1 ∧
    addBody (addBody (applySteps defaultPropagator steps) b) b =
      addBody (applySteps defaultPropagator steps) b := by
  have hded := dedup_applySteps steps defaultPropagator
    (by
      intro c
      simp [defaultPropagator, RecordMap.countKey])
  refine ⟨hded b, ?_, ?_⟩
  · by_cases hb :
        (applySteps defaultPropagator steps).bodiesToPropagate_.containsBody b
    · rw [addBody_of_contains _ b hb]
      have h1 := (RecordMap.containsBody_iff_countKey _ b).mp hb
      have h2 := hded b
      omega
    · have hf :
          (applySteps defaultPropagator steps).bodiesToPropagate_.containsBody
            b = false := by simpa using hb
      have h0 := RecordMap.countKey_eq_zero_of_not_contains _ b hf
      obtain ⟨t0, t1, d, m, hist, happ⟩ :
          ∃ t0 t1 d m hist, applySteps defaultPropagator steps =
            Propagator.mk t0 t1 d m hist := by
        cases happ : applySteps defaultPropagator steps with
        | mk t0 t1 d m hist => exact ⟨t0, t1, d, m, hist, rfl⟩
      rw [happ] at hf h0 ⊢
      simp only [bodies_mk] at hf h0
      simp [addBody, hf, h0]
  · exact addBody_of_contains _ b (containsBody_addBody _ b)

/-- C8: after any sequence of interval-bound setter calls, in any order and
possibly repeated, the getters return the last value passed to the
respective setter (or the prior value if that setter was never called), and
the setters touch no other configuration: `fixedOutputInterval_`, the
registry and the stored history are unchanged. -/
theorem interval_setters_last_write_wins (p : Propagator)
    (calls : List (Sum ℚ ℚ)) :
    getPropagationIntervalStart (applyIntervalCalls p calls) =
      lastStartValue (getPropagationIntervalStart p) calls ∧
    getPropagationIntervalEnd (applyIntervalCalls p calls) =
      lastEndValue (getPropagationIntervalEnd p) calls ∧
    (applyIntervalCalls p calls).fixedOutputInterval_ =
      p.fixedOutputInterval_ ∧
    (applyIntervalCalls p calls).bodiesToPropagate_ =
      p.bodiesToPropagate_ ∧
    (applyIntervalCalls p calls).propagationHistory_ =
      p.propagationHistory_ := by
  induction calls generalizing p with
  | nil => exact ⟨rfl, rfl, rfl, rfl, rfl⟩
  | cons c rest ih =>
      obtain ⟨t0, t1, d, m, hist⟩ := p
      cases c with
      | inl a =>
          have h := ih (setPropagationIntervalStart (.mk t0 t1 d m hist) a)
          simpa [applyIntervalCalls, applyIntervalCall, lastStartValue,
            lastEndValue, setPropagationIntervalStart,
            getPropagationIntervalStart, getPropagationIntervalEnd] using h
      | inr bb =>
          have h := ih (setPropagationIntervalEnd (.mk t0 t1 d m hist) bb)
          simpa [applyIntervalCalls, applyIntervalCall, lastStartValue,
            lastEndValue, setPropagationIntervalEnd,
            getPropagationIntervalStart, getPropagationIntervalEnd] using h

/-- C9: the diagnostic rendering operation (the `operator<<` overload) reads
the configuration and appends a summary to the stream, leaving every part
of the Propagator state — interval bounds, fixed output interval, the
registry, and the stored history — unchanged. -/
theorem stream_insertion_leaves_propagator_unchanged (stream : String)
    (p : Propagator) :
    (insertIntoStream stream p).2 = p ∧
    (insertIntoStream stream p).2.propagationIntervalStart_ =
      p.propagationIntervalStart_ ∧
    (insertIntoStream stream p).2.propagationIntervalEnd_ =
      p.propagationIntervalEnd_ ∧
    (insertIntoStream stream p).2.fixedOutputInterval_ =
      p.fixedOutputInterval_ ∧
    (insertIntoStream stream p).2.bodiesToPropagate_ =
      p.bodiesToPropagate_ ∧
    (insertIntoStream stream p).2.propagationHistory_ =
      p.propagationHistory_ :=
  ⟨rfl, rfl, rfl, rfl, rfl, rfl⟩

/-- C10: `getPropagationHistoryAtFixedOutputIntervals` returns the history
by value — the returned mapping equals the stored `propagationHistory_`,
and after the caller mutates its copy (insert or erase), a repeated call
still returns the original mapping and never observes the mutated copy. -/
theorem history_getter_returns_copy (p : Propagator) (b : ℕ)
    (m : List (ℚ × State)) (t t₂ : ℚ) (s : State)
    (h : getPropagationHistoryAtFixedOutputIntervals p b = .ok m) :
    p.propagationHistory_ = m ∧
    getPropagationHistoryAtFixedOutputIntervals p b = .ok m ∧
    (histInsert t s m ≠ m →
      getPropagationHistoryAtFixedOutputIntervals p b ≠
        .ok (histInsert t s m)) ∧
    (histErase t₂ m ≠ m →
      getPropagationHistoryAtFixedOutputIntervals p b ≠
        .ok (histErase t₂ m)) := by
  refine ⟨?_, h, ?_, ?_⟩
  · unfold getPropagationHistoryAtFixedOutputIntervals at h
    split at h
    · injection h
    · injection h
  · intro hne hcontra
    rw [h] at hcontra
    injection hcontra with h'
    exact hne h'.symm
  · intro hne hcontra
    rw [h] at hcontra
    injection hcontra with h'
    exact hne h'.symm

/-- Witness for C10: body 3 of `pHistWit` is registered and the stored
history is `[(0, s)]`; the caller's insert and erase change the copy, yet a
repeated call still returns the original mapping. -/
theorem history_getter_returns_copy_witness :
    (getPropagationHistoryAtFixedOutputIntervals pHistWit 3 =
      .ok [(0, ⟨0, []⟩)]) ∧
    (pHistWit.propagationHistory_ = [(0, ⟨0, []⟩)] ∧
      getPropagationHistoryAtFixedOutputIntervals pHistWit 3 =
        .ok [(0, ⟨0, []⟩)] ∧
      (histInsert 1 ⟨1, []⟩ [(0, ⟨0, []⟩)] ≠ [(0, ⟨0, []⟩)] →
        getPropagationHistoryAtFixedOutputIntervals pHistWit 3 ≠
          .ok (histInsert 1 ⟨1, []⟩ [(0, ⟨0, []⟩)])) ∧
      (histErase 0 [(0, ⟨0, []⟩)] ≠ [(0, ⟨0, []⟩)] →
        getPropagationHistoryAtFixedOutputIntervals pHistWit 3 ≠
          .ok (histErase 0 [(0, ⟨0, []⟩)]))) ∧
    histInsert 1 ⟨1, []⟩ [(0, ⟨0, []⟩)] ≠ [(0, ⟨0, []⟩)] ∧
    histErase 0 [(0, ⟨0, []⟩)] ≠ [(0, ⟨0, []⟩)] := by
  exact ⟨rfl,
    history_getter_returns_copy pHistWit 3 [(0, ⟨0, []⟩)] 1 0 ⟨1, []⟩ rfl,
    by decide, by decide⟩

end Tudat
